import Mathlib

/-!
Shallow embedding of `src/tools/mkrom.c` (the EmuTOS `mkrom` image tool).

Machine model:
* `size_t` / `unsigned long` values are modelled as `Nat`; where the C code
  can wrap (the multiplications in `get_size_value`), the result is reduced
  modulo `2 ^ 64`, the width of `unsigned long` / `size_t` on the usual
  LP64 targets.  `SIZE_ERROR` is `(size_t)-1`, i.e. `2 ^ 64 - 1`.
* An open input file (`FILE*` opened for reading) is a pair of its byte
  contents and the current read position (`InFile`).  An open output file
  is likewise its current byte contents plus the write position (`OutFile`);
  `fwrite` overwrites bytes at the position and extends the file at the end.
  The commands always receive the output file freshly opened with mode
  `"wb"`, i.e. empty at position 0.
* `fread` on a healthy stream returns between 1 and
  `min requested remaining` bytes, and 0 exactly at end of file; the exact
  chunk sizes a stream chooses to deliver are modelled by a schedule
  (`sched : List Nat`), one entry consumed per read call, so the theorems
  quantify over every possible sequence of (possibly partial) reads.
  I/O faults (`ferror`, failing `fwrite`, failing `ftell`/`fseek`) are not
  modelled: streams here never fault, so the only reachable error paths
  are the size-check failure and the premature-end-of-file path.
* The global scratch buffer `g_buffer` matters only through its contents at
  the start of a `write_byte_block` call; that prior content is passed in
  explicitly as `buf0`, and all theorems hold for every `buf0`.
-/

/-- BUFFER_SIZE from mkrom.c: the fixed 16 KiB scratch buffer size. -/
def BUFFER_SIZE : Nat := 16 * 1024

/-- Bit width of `unsigned long` / `size_t` in the machine model (LP64). -/
def wordBits : Nat := 64

/-- Modulus of `unsigned long` / `size_t` arithmetic. -/
def wordMod : Nat := 2 ^ wordBits

/-- SIZE_ERROR from mkrom.c: `(size_t)-1`, the all-ones sentinel value. -/
def SIZE_ERROR : Nat := wordMod - 1

/-- The CMD_TYPE enumeration from mkrom.c. -/
inductive CMD_TYPE where
  | CMD_NONE
  | CMD_PAD
  | CMD_PAK3
  | CMD_STC
deriving Repr, DecidableEq

/-- Error outcomes reachable in the fault-free stream model: the
premature-end-of-file failure of `copy_stream` and the size-ceiling failure
(which reports the exact number of extra bytes, as the C code prints). -/
inductive MkErr where
  | shortRead
  | tooLarge (extra : Nat)
deriving Repr, DecidableEq

/-- An open input stream: full byte contents plus current read position. -/
structure InFile where
  data : List UInt8
  pos : Nat
deriving Repr, DecidableEq

/-- An open output stream: current byte contents plus current write position. -/
structure OutFile where
  data : List UInt8
  pos : Nat
deriving Repr, DecidableEq

/-- ftell on an input stream. -/
def ftell (file : InFile) : Nat := file.pos

/-- fseek(file, 0, SEEK_END) on an input stream. -/
def fseek_end (file : InFile) : InFile := ⟨file.data, file.data.length⟩

/-- fseek(file, n, SEEK_SET) on an input stream. -/
def fseek_set (file : InFile) (n : Nat) : InFile := ⟨file.data, n⟩

/-- fseek(file, n, SEEK_SET) on an output stream. -/
def fseek_out_set (file : OutFile) (n : Nat) : OutFile := ⟨file.data, n⟩

/-- fwrite of a byte sequence to an output stream: overwrites from the
current position onward and extends the file where the write runs past the
current end; the position advances by the number of bytes written. -/
def fwriteOut (bs : List UInt8) (f : OutFile) : OutFile :=
  ⟨f.data.take f.pos ++ bs ++ f.data.drop (f.pos + bs.length), f.pos + bs.length⟩

/-- get_file_size from mkrom.c (lines 70-110): remember the position, seek
to the end, read the end position, restore the original position, and
return the end position as the size.  The fault-free model never returns
SIZE_ERROR. -/
def get_file_size (file : InFile) : Nat × InFile :=
  let initial_pos := ftell file
  let file1 := fseek_end file
  let end_pos := ftell file1
  let file2 := fseek_set file1 initial_pos
  (end_pos, file2)

/-- The loop of write_byte_block: while count > 0, write
`MIN(BUFFER_SIZE, count)` bytes from the start of the (already memset)
buffer and subtract the amount written. -/
def wbb_loop (buffer : List UInt8) (count : Nat) (outfile : OutFile) : OutFile :=
  if h : count = 0 then outfile
  else
    wbb_loop buffer (count - min BUFFER_SIZE count)
      (fwriteOut (List.take (min BUFFER_SIZE count) buffer) outfile)
termination_by count
decreasing_by
  simp only [BUFFER_SIZE]
  omega

/-- write_byte_block from mkrom.c (lines 113-133): memset the first
`MIN(BUFFER_SIZE, count)` bytes of the global buffer to `value` once (the
buffer held `buf0` beforehand), then loop writing chunks of
`MIN(BUFFER_SIZE, count)` bytes until `count` bytes have been written. -/
def write_byte_block (buf0 : List UInt8) (value : UInt8) (count : Nat)
    (outfile : OutFile) : OutFile :=
  wbb_loop
    (List.replicate (min BUFFER_SIZE count) value ++ List.drop (min BUFFER_SIZE count) buf0)
    count outfile

/-- Number of bytes one fread call yields when `toread` bytes are requested,
`avail` bytes remain before end of file, and the stream chooses to deliver
`s` bytes: clamped into `[1, min toread avail]` while data remains (a
healthy stream returns at least one byte when data is available), and 0 at
end of file (the `avail = 0` case is handled before this is used). -/
def readAmount (toread avail s : Nat) : Nat :=
  min (min toread avail) (max s 1)

/-- copy_stream from mkrom.c (lines 136-176): repeatedly request
`MIN(BUFFER_SIZE, count)` bytes; a read that returns 0 bytes while bytes
are still owed means premature end of file (the `ferror` branch is
unreachable in the fault-free model); each chunk read is immediately
written out in full and deducted from `count`. -/
def copy_stream (infile : InFile) (sched : List Nat) (outfile : OutFile)
    (count : Nat) : Option MkErr × InFile × OutFile :=
  if h : min BUFFER_SIZE count = 0 then (none, infile, outfile)
  else if ha : infile.data.length - infile.pos = 0 then
    (some MkErr.shortRead, infile, outfile)
  else
    copy_stream
      ⟨infile.data,
       infile.pos + readAmount (min BUFFER_SIZE count)
         (infile.data.length - infile.pos) (sched.headD BUFFER_SIZE)⟩
      sched.tail
      (fwriteOut
        (List.take
          (readAmount (min BUFFER_SIZE count) (infile.data.length - infile.pos)
            (sched.headD BUFFER_SIZE))
          (List.drop infile.pos infile.data))
        outfile)
      (count - readAmount (min BUFFER_SIZE count) (infile.data.length - infile.pos)
        (sched.headD BUFFER_SIZE))
termination_by count
decreasing_by
  simp only [readAmount]
  omega

/-- append_and_pad from mkrom.c (lines 179-210): probe the input size,
fail if it exceeds `target_size` (before anything is written), copy the
whole input, then zero-fill up to `target_size`.  The quadruple returned is
(error, input stream, output stream, *psource_size). -/
def append_and_pad (infile : InFile) (sched : List Nat) (outfile : OutFile)
    (buf0 : List UInt8) (target_size : Nat) :
    Option MkErr × InFile × OutFile × Nat :=
  let probe := get_file_size infile
  let source_size := probe.1
  let infile1 := probe.2
  if source_size > target_size then
    (some (MkErr.tooLarge (source_size - target_size)), infile1, outfile, source_size)
  else
    match copy_stream infile1 sched outfile source_size with
    | (some e, inf2, outf2) => (some e, inf2, outf2, source_size)
    | (none, inf2, outf2) =>
        (none, inf2, write_byte_block buf0 0 (target_size - source_size) outf2,
         source_size)

/-- cmd_pad from mkrom.c (lines 213-231): append_and_pad at the
caller-supplied target size; on success the printed free-byte count is
`target_size - source_size` (returned as the last component, 0 on error). -/
def cmd_pad (infile : InFile) (sched : List Nat) (outfile : OutFile)
    (buf0 : List UInt8) (target_size : Nat) : Option MkErr × OutFile × Nat :=
  match append_and_pad infile sched outfile buf0 target_size with
  | (some e, _, outf, _) => (some e, outf, 0)
  | (none, _, outf, source_size) => (none, outf, target_size - source_size)

/-- The patch offset of cmd_pak3 (`jmp_address = 0x40030L`). -/
def jmp_address : Nat := 0x40030

/-- The 6-byte JMP instruction cmd_pak3 patches in at `jmp_address`. -/
def jmp_instr : List UInt8 := [0x4e, 0xf9, 0x00, 0xe0, 0x00, 0x00]

/-- cmd_pak3 from mkrom.c (lines 234-279): check the input against the
256 KiB input limit (before anything is written), append_and_pad to the
512 KiB target, then seek to `jmp_address` and overwrite 6 bytes with
`jmp_instr`. -/
def cmd_pak3 (infile : InFile) (sched : List Nat) (outfile : OutFile)
    (buf0 : List UInt8) : Option MkErr × OutFile :=
  let max_size := 256 * 1024
  let probe := get_file_size infile
  let source_size := probe.1
  let infile1 := probe.2
  if source_size > max_size then
    (some (MkErr.tooLarge (source_size - max_size)), outfile)
  else
    match append_and_pad infile1 sched outfile buf0 (512 * 1024) with
    | (some e, _, outf, _) => (some e, outf)
    | (none, _, outf, _) =>
        (none, fwriteOut jmp_instr (fseek_out_set outf jmp_address))

/-- cmd_stc from mkrom.c (lines 282-323): check the input against the
128 KiB target (before anything is written), write a 4-byte zero prefix,
copy the input, then zero-fill `target_size - source_size` further bytes;
the printed free-byte count `target_size - source_size` is returned as the
last component (0 on error). -/
def cmd_stc (infile : InFile) (sched : List Nat) (outfile : OutFile)
    (buf0 : List UInt8) : Option MkErr × OutFile × Nat :=
  let target_size := 128 * 1024
  let probe := get_file_size infile
  let source_size := probe.1
  let infile1 := probe.2
  if source_size > target_size then
    (some (MkErr.tooLarge (source_size - target_size)), outfile, 0)
  else
    match copy_stream infile1 sched (write_byte_block buf0 0 4 outfile) source_size with
    | (some e, _, outf) => (some e, outf, 0)
    | (none, _, outf) =>
        (none, write_byte_block buf0 0 (target_size - source_size) outf,
         target_size - source_size)

/-- The output artifact main leaves at the destination path (mkrom.c lines
446-452): on any command failure the partially written file is removed, so
the caller retains nothing; on success the written bytes remain. -/
def retained_output (r : Option MkErr × OutFile × Nat) : Option (List UInt8) :=
  match r.1 with
  | some _ => none
  | none => some r.2.1.data

/-- The whitespace class the `%lu` conversion of sscanf skips (C `isspace`
in the default locale). -/
def isSpaceChar (c : Char) : Bool :=
  c == ' ' || c == '\t' || c == '\n' || c == '\x0b' || c == '\x0c' || c == '\r'

/-- Value of a decimal digit string. -/
def digitsVal (ds : List Char) : Nat :=
  ds.foldl (fun acc c => acc * 10 + (c.toNat - 48)) 0

/-- The optional sign accepted by `%lu` (strtoul semantics): returns
whether the value is to be negated, and the rest of the input. -/
def parseSign (s : List Char) : Bool × List Char :=
  match s with
  | [] => (false, [])
  | c :: r =>
      if c = '+' then (false, r)
      else if c = '-' then (true, r)
      else (false, c :: r)

/-- Model of `sscanf(strsize, "%lu%c%c", &val, &suffix, &tail)`:
`%lu` skips leading whitespace, accepts an optional sign, and converts the
longest digit sequence (value taken modulo `2 ^ 64`, a `'-'` sign negating
it modulo `2 ^ 64` per strtoul); each `%c` then consumes exactly the next
character if one remains.  `none` is the matching failure (no digits), and
the two `Option Char` components tell how many further items were
assigned. -/
def sscanf_lu_cc (s : List Char) : Option (Nat × Option Char × Option Char) :=
  let s1 := s.dropWhile isSpaceChar
  let p := parseSign s1
  let ds := p.2.takeWhile Char.isDigit
  if ds = [] then none
  else
    let v0 := digitsVal ds % wordMod
    let v := if p.1 then (wordMod - v0) % wordMod else v0
    let r := p.2.dropWhile Char.isDigit
    some (v, r.head?, r.tail.head?)

/-- get_size_value from mkrom.c (lines 44-67): parse with
`"%lu%c%c"`; a bare number is bytes, one `k`/`K`, `m`/`M` or `g`/`G`
suffix multiplies by 1024, 1024², 1024³ (in `unsigned long` arithmetic,
i.e. modulo `2 ^ 64`); anything else - no number, an unknown suffix, or a
trailing character after the suffix - reports an invalid size and returns
SIZE_ERROR. -/
def get_size_value (strsize : String) : Nat :=
  match sscanf_lu_cc strsize.data with
  | none => SIZE_ERROR
  | some (val, none, _) => val
  | some (val, some sfx, none) =>
      if sfx = 'k' || sfx = 'K' then val * 1024 % wordMod
      else if sfx = 'm' || sfx = 'M' then val * (1024 * 1024) % wordMod
      else if sfx = 'g' || sfx = 'G' then val * (1024 * 1024 * 1024) % wordMod
      else SIZE_ERROR
  | some (_, some _, some _) => SIZE_ERROR

/-- Outcome of main's argument handling, up to the point where files are
opened. -/
inductive DispatchOutcome where
  | usage
  | invalid_size
  | run (op : CMD_TYPE) (target_size : Nat)
deriving Repr, DecidableEq

/-- Model of main's argument handling (mkrom.c lines 363-398): `args` is
argv without argv[0].  For `pad`, the size argument is parsed first and a
SIZE_ERROR result exits with failure status before any file is opened
(`invalid_size`); otherwise the selected command proceeds to open the
files (`run`). -/
def main_dispatch (args : List String) : DispatchOutcome :=
  match args with
  | [cmd, strsize, _, _] =>
      if cmd = "pad" then
        if get_size_value strsize = SIZE_ERROR then DispatchOutcome.invalid_size
        else DispatchOutcome.run CMD_TYPE.CMD_PAD (get_size_value strsize)
      else DispatchOutcome.usage
  | [cmd, _, _] =>
      if cmd = "pak3" then DispatchOutcome.run CMD_TYPE.CMD_PAK3 0
      else if cmd = "stc" then DispatchOutcome.run CMD_TYPE.CMD_STC 0
      else DispatchOutcome.usage
  | _ => DispatchOutcome.usage

/-- Claim C7: get_file_size returns the stream's total byte length and
leaves the stream (in particular its read position) exactly as it was, so
two consecutive probes return the same value. -/
theorem get_file_size_preserves_pos (file : InFile) :
    (get_file_size file).2 = file ∧
    (get_file_size file).1 = file.data.length ∧
    (get_file_size (get_file_size file).2).1 = (get_file_size file).1 :=
  ⟨rfl, rfl, rfl⟩

/-- A write at the end of the output stream appends its bytes. -/
theorem fwriteOut_atEnd (bs : List UInt8) (f : OutFile) (h : f.pos = f.data.length) :
    fwriteOut bs f = ⟨f.data ++ bs, f.data.length + bs.length⟩ := by
  have hd : f.data.drop (f.data.length + bs.length) = [] :=
    List.drop_eq_nil_of_le (by omega)
  simp [fwriteOut, h, hd, List.take_length]

/-- The write_byte_block loop, run at the end of the output stream with a
buffer whose relevant prefix is all `v`, appends `count` copies of `v`. -/
theorem wbb_loop_eq (v : UInt8) : ∀ (count : Nat) (buffer : List UInt8) (out : OutFile),
    out.pos = out.data.length →
    (∀ k, k ≤ min BUFFER_SIZE count → List.take k buffer = List.replicate k v) →
    wbb_loop buffer count out =
      ⟨out.data ++ List.replicate count v, out.data.length + count⟩ := by
  intro count
  induction count using Nat.strong_induction_on with
  | _ count ih =>
    intro buffer out hpos hbuf
    rw [wbb_loop]
    by_cases h0 : count = 0
    · subst h0
      simp only [dif_pos]
      cases out with
      | mk d p => simp_all
    · rw [dif_neg h0]
      have hB : 0 < BUFFER_SIZE := by decide
      have hm1 : 1 ≤ min BUFFER_SIZE count := by omega
      have hmc : min BUFFER_SIZE count ≤ count := by omega
      have hchunk : List.take (min BUFFER_SIZE count) buffer =
          List.replicate (min BUFFER_SIZE count) v := hbuf _ (le_refl _)
      rw [hchunk, fwriteOut_atEnd _ _ hpos]
      rw [ih (count - min BUFFER_SIZE count) (by omega) _ _
        (by simp [List.length_replicate])
        (fun k hk => hbuf k (by omega))]
      have hrep : List.replicate (min BUFFER_SIZE count) v ++
          List.replicate (count - min BUFFER_SIZE count) v = List.replicate count v := by
        rw [← List.replicate_add]
        congr 1
        omega
      simp only [List.length_replicate, List.append_assoc, hrep]
      congr 1
      simp only [List.length_append, List.length_replicate]
      omega

/-- write_byte_block, called at the end of the output stream, appends
exactly `count` copies of `value`, for every prior buffer content `buf0`
and every `count` (including 0 and counts beyond BUFFER_SIZE). -/
theorem write_byte_block_eq (buf0 : List UInt8) (v : UInt8) (count : Nat)
    (out : OutFile) (hpos : out.pos = out.data.length) :
    write_byte_block buf0 v count out =
      ⟨out.data ++ List.replicate count v, out.data.length + count⟩ := by
  apply wbb_loop_eq v count _ out hpos
  intro k hk
  rw [List.take_append_of_le_length (by simp [List.length_replicate]; omega)]
  rw [List.take_replicate]
  congr 1
  omega

/-- When the input stream still holds at least `count` bytes past the read
position and the output position is at the end, copy_stream succeeds for
every read schedule, advances the read position by `count`, and appends
exactly the next `count` input bytes to the output. -/
theorem copy_stream_ok : ∀ (count : Nat) (infile : InFile) (sched : List Nat)
    (out : OutFile),
    out.pos = out.data.length →
    count + infile.pos ≤ infile.data.length →
    copy_stream infile sched out count =
      (none, ⟨infile.data, infile.pos + count⟩,
       ⟨out.data ++ List.take count (List.drop infile.pos infile.data),
        out.data.length + count⟩) := by
  intro count
  induction count using Nat.strong_induction_on with
  | _ count ih =>
    intro infile sched out hpos hle
    rw [copy_stream]
    by_cases h0 : count = 0
    · subst h0
      rw [dif_pos (by simp)]
      cases out with
      | mk od op =>
        cases infile with
        | mk idt ip => simp_all
    · have hB : 0 < BUFFER_SIZE := by decide
      have hmin : ¬ (min BUFFER_SIZE count = 0) := by omega
      rw [dif_neg hmin]
      have havail : ¬ (infile.data.length - infile.pos = 0) := by omega
      rw [dif_neg havail]
      have ht1 : 1 ≤ readAmount (min BUFFER_SIZE count)
          (infile.data.length - infile.pos) (sched.headD BUFFER_SIZE) := by
        simp only [readAmount]
        omega
      have htc : readAmount (min BUFFER_SIZE count)
          (infile.data.length - infile.pos) (sched.headD BUFFER_SIZE) ≤ count := by
        simp only [readAmount]
        omega
      have hta : readAmount (min BUFFER_SIZE count)
          (infile.data.length - infile.pos) (sched.headD BUFFER_SIZE) ≤
          infile.data.length - infile.pos := by
        simp only [readAmount]
        omega
      set t := readAmount (min BUFFER_SIZE count)
        (infile.data.length - infile.pos) (sched.headD BUFFER_SIZE) with hts
      have hchunklen : (List.take t (List.drop infile.pos infile.data)).length = t := by
        simp only [List.length_take, List.length_drop]
        omega
      rw [fwriteOut_atEnd _ _ hpos]
      have ihx : copy_stream ⟨infile.data, infile.pos + t⟩ sched.tail
          ⟨out.data ++ List.take t (List.drop infile.pos infile.data),
           out.data.length + (List.take t (List.drop infile.pos infile.data)).length⟩
          (count - t) =
          (none, ⟨infile.data, infile.pos + t + (count - t)⟩,
           ⟨(out.data ++ List.take t (List.drop infile.pos infile.data)) ++
              List.take (count - t) (List.drop (infile.pos + t) infile.data),
            (out.data ++ List.take t (List.drop infile.pos infile.data)).length +
              (count - t)⟩) :=
        ih (count - t) (by omega) _ _ _
          (by simp)
          (by
            show (count - t) + (infile.pos + t) ≤ infile.data.length
            omega)
      rw [ihx]
      have hdata : (out.data ++ List.take t (List.drop infile.pos infile.data)) ++
          List.take (count - t) (List.drop (infile.pos + t) infile.data) =
          out.data ++ List.take count (List.drop infile.pos infile.data) := by
        rw [List.append_assoc]
        congr 1
        rw [← List.drop_drop]
        rw [← List.take_add]
        congr 1
        omega
      rw [hdata]
      simp only [Prod.mk.injEq, InFile.mk.injEq, OutFile.mk.injEq, hchunklen,
        List.length_append, true_and, and_true]
      omega

/-- Claim C5: for every requested count > 0 and every input stream holding
fewer than `count` bytes past its read position, copy_stream reports the
premature-end-of-file error rather than success, under every read schedule
(so also when end of data is reached only after one or more partial but
non-empty reads). -/
theorem copy_stream_short_read : ∀ (count : Nat) (infile : InFile)
    (sched : List Nat) (out : OutFile),
    0 < count →
    infile.data.length < infile.pos + count →
    (copy_stream infile sched out count).1 = some MkErr.shortRead := by
  intro count
  induction count using Nat.strong_induction_on with
  | _ count ih =>
    intro infile sched out hc hshort
    rw [copy_stream]
    have hB : 0 < BUFFER_SIZE := by decide
    have hmin : ¬ (min BUFFER_SIZE count = 0) := by omega
    rw [dif_neg hmin]
    by_cases ha : infile.data.length - infile.pos = 0
    · rw [dif_pos ha]
    · rw [dif_neg ha]
      have ht1 : 1 ≤ readAmount (min BUFFER_SIZE count)
          (infile.data.length - infile.pos) (sched.headD BUFFER_SIZE) := by
        simp only [readAmount]
        omega
      have hta : readAmount (min BUFFER_SIZE count)
          (infile.data.length - infile.pos) (sched.headD BUFFER_SIZE) ≤
          infile.data.length - infile.pos := by
        simp only [readAmount]
        omega
      set t := readAmount (min BUFFER_SIZE count)
        (infile.data.length - infile.pos) (sched.headD BUFFER_SIZE) with hts
      apply ih (count - t) (by omega)
      · omega
      · show infile.data.length < (infile.pos + t) + (count - t)
        omega

/-- Closed witness for C5: a 3-byte source asked for 5 bytes, read in a
partial 2-byte chunk then a 1-byte chunk, fails with the short-read error. -/
theorem copy_stream_short_read_witness :
    (0 < 5 ∧ (⟨[1, 2, 3], 0⟩ : InFile).data.length < (⟨[1, 2, 3], 0⟩ : InFile).pos + 5) ∧
    (copy_stream ⟨[1, 2, 3], 0⟩ [2] ⟨[], 0⟩ 5).1 = some MkErr.shortRead :=
  ⟨⟨by decide, by decide⟩,
   copy_stream_short_read 5 ⟨[1, 2, 3], 0⟩ [2] ⟨[], 0⟩ (by decide) (by decide)⟩

/-- append_and_pad on an input stream positioned at 0 whose size fits the
target: succeeds, and the output (written at its end) gains the whole
input followed by a zero fill up to `target_size` bytes written. -/
theorem append_and_pad_ok (input : List UInt8) (sched : List Nat) (out : OutFile)
    (buf0 : List UInt8) (target_size : Nat)
    (hpos : out.pos = out.data.length) (hle : input.length ≤ target_size) :
    append_and_pad ⟨input, 0⟩ sched out buf0 target_size =
      (none, ⟨input, input.length⟩,
       ⟨out.data ++ input ++ List.replicate (target_size - input.length) 0,
        out.data.length + target_size⟩,
       input.length) := by
  have hcopy := copy_stream_ok input.length ⟨input, 0⟩ sched out hpos (by simp)
  simp only [List.drop_zero, List.take_length, Nat.zero_add] at hcopy
  have hwbb := write_byte_block_eq buf0 0 (target_size - input.length)
    ⟨out.data ++ input, out.data.length + input.length⟩ (by simp)
  simp only [append_and_pad, get_file_size, ftell, fseek_end, fseek_set]
  rw [if_neg (by omega)]
  rw [hcopy]
  simp only [hwbb]
  simp only [Prod.mk.injEq, OutFile.mk.injEq, List.append_assoc, List.length_append,
    true_and, and_true]
  omega

/-- append_and_pad fails with the exact-excess error, and writes nothing,
whenever the probed input size exceeds the target. -/
theorem append_and_pad_too_large (infile : InFile) (sched : List Nat)
    (out : OutFile) (buf0 : List UInt8) (target_size : Nat)
    (h : target_size < infile.data.length) :
    append_and_pad infile sched out buf0 target_size =
      (some (MkErr.tooLarge (infile.data.length - target_size)), infile, out,
       infile.data.length) := by
  simp only [append_and_pad, get_file_size, ftell, fseek_end, fseek_set]
  rw [if_pos (by omega)]

/-- cmd_stc on an accepted input (size at most 128 KiB = 131072 bytes):
succeeds and appends 4 zero bytes, the input, and a zero fill of
131072 - size bytes, 131076 bytes in all, reporting 131072 - size free. -/
theorem cmd_stc_eq (input : List UInt8) (sched : List Nat) (out : OutFile)
    (buf0 : List UInt8) (hpos : out.pos = out.data.length)
    (hle : input.length ≤ 131072) :
    cmd_stc ⟨input, 0⟩ sched out buf0 =
      (none,
       ⟨out.data ++ List.replicate 4 0 ++ input ++
          List.replicate (131072 - input.length) 0,
        out.data.length + 131076⟩,
       131072 - input.length) := by
  have hw4 := write_byte_block_eq buf0 0 4 out hpos
  have hcopy := copy_stream_ok input.length ⟨input, 0⟩ sched
    ⟨out.data ++ List.replicate 4 0, out.data.length + 4⟩
    (by simp only [List.length_append, List.length_replicate])
    (by simp)
  simp only [List.drop_zero, List.take_length, Nat.zero_add] at hcopy
  have hwf := write_byte_block_eq buf0 0 (128 * 1024 - input.length)
    ⟨out.data ++ List.replicate 4 0 ++ input,
     (out.data ++ List.replicate 4 0).length + input.length⟩
    (by simp only [List.length_append, List.length_replicate])
  simp only [cmd_stc, get_file_size, ftell, fseek_end, fseek_set]
  rw [if_neg (by omega)]
  rw [hw4, hcopy]
  simp only [hwf]
  simp only [Prod.mk.injEq, OutFile.mk.injEq, List.length_append,
    List.length_replicate, true_and, and_true]
  omega

/-- cmd_stc rejects an input larger than 131072 bytes with the exact-excess
error before writing anything. -/
theorem cmd_stc_big (infile : InFile) (sched : List Nat) (out : OutFile)
    (buf0 : List UInt8) (h : 131072 < infile.data.length) :
    cmd_stc infile sched out buf0 =
      (some (MkErr.tooLarge (infile.data.length - 131072)), out, 0) := by
  simp only [cmd_stc, get_file_size, ftell, fseek_end, fseek_set]
  rw [if_pos (by omega)]

/-- cmd_pak3 on an accepted input (size at most 256 KiB = 262144 bytes) and
a fresh output file: succeeds; the output is the input, zero fill up to
offset 0x40030 = 262192, the 6 patch bytes, and zero fill up to 524288
bytes total. -/
theorem cmd_pak3_eq (input : List UInt8) (sched : List Nat) (buf0 : List UInt8)
    (hle : input.length ≤ 262144) :
    cmd_pak3 ⟨input, 0⟩ sched ⟨[], 0⟩ buf0 =
      (none,
       ⟨input ++ List.replicate (262192 - input.length) 0 ++ jmp_instr ++
          List.replicate 262090 0,
        262198⟩) := by
  have hap := append_and_pad_ok input sched ⟨[], 0⟩ buf0 (512 * 1024) rfl (by omega)
  simp only [List.nil_append, List.length_nil, Nat.zero_add] at hap
  simp only [cmd_pak3, get_file_size, ftell, fseek_end, fseek_set]
  rw [if_neg (by omega)]
  rw [hap]
  have hjl : jmp_instr.length = 6 := rfl
  simp only [fseek_out_set, fwriteOut, jmp_address, hjl]
  have htake : (input ++ List.replicate (512 * 1024 - input.length) 0).take 262192 =
      input ++ List.replicate (262192 - input.length) 0 := by
    rw [List.take_append_eq_append_take]
    rw [List.take_of_length_le (by omega)]
    rw [List.take_replicate]
    congr 2
    omega
  have hdrop : (input ++ List.replicate (512 * 1024 - input.length) 0).drop (262192 + 6) =
      List.replicate 262090 0 := by
    rw [List.drop_append_eq_append_drop]
    rw [List.drop_eq_nil_of_le (by omega), List.nil_append]
    rw [List.drop_replicate]
    congr 1
    omega
  rw [htake, hdrop]

/-- cmd_pak3 rejects an input larger than 262144 bytes with the exact-excess
error before writing anything, even when the input would fit the 512 KiB
padding target. -/
theorem cmd_pak3_big (infile : InFile) (sched : List Nat) (out : OutFile)
    (buf0 : List UInt8) (h : 262144 < infile.data.length) :
    cmd_pak3 infile sched out buf0 =
      (some (MkErr.tooLarge (infile.data.length - 262144)), out) := by
  simp only [cmd_pak3, get_file_size, ftell, fseek_end, fseek_set]
  rw [if_pos (by omega)]

/-- Claim C6: for every prior buffer content, byte value and count,
write_byte_block (called with the output positioned at its end, as all its
callers do) appends exactly `count` bytes each equal to `value` - including
`count = 0`, a no-op, and counts larger than the 16 KiB buffer, where every
chunk written still consists entirely of `value` although the buffer is
pre-filled only once with `MIN(BUFFER_SIZE, count)` bytes. -/
theorem write_byte_block_appends (buf0 : List UInt8) (value : UInt8) (count : Nat)
    (out : OutFile) (hpos : out.pos = out.data.length) :
    write_byte_block buf0 value count out =
      ⟨out.data ++ List.replicate count value, out.data.length + count⟩ :=
  write_byte_block_eq buf0 value count out hpos

/-- Closed witness for C6: a 40000-byte fill (more than two buffer loads)
and a 0-byte fill, both on an empty output file. -/
theorem write_byte_block_appends_witness :
    ((⟨[], 0⟩ : OutFile).pos = (⟨[], 0⟩ : OutFile).data.length ∧
      write_byte_block [] 7 40000 ⟨[], 0⟩ =
        ⟨([] : List UInt8) ++ List.replicate 40000 7, ([] : List UInt8).length + 40000⟩) ∧
    write_byte_block [] 7 0 ⟨[], 0⟩ =
      ⟨([] : List UInt8) ++ List.replicate 0 7, ([] : List UInt8).length + 0⟩ :=
  ⟨⟨rfl, write_byte_block_appends [] 7 40000 ⟨[], 0⟩ rfl⟩,
   write_byte_block_appends [] 7 0 ⟨[], 0⟩ rfl⟩

/-- Counterexample to claim C1 as stated: on the empty input (size 0, well
under the ceiling), the stc output stream holds 131076 bytes, not 131072 -
the 4-byte prefix is written in addition to the 128 KiB of copy plus
padding. -/
theorem cmd_stc_length_counterexample :
    ((cmd_stc ⟨([] : List UInt8), 0⟩ [] ⟨[], 0⟩ []).2.1.data).length ≠ 131072 := by
  have h := cmd_stc_eq [] [] ⟨[], 0⟩ [] rfl (by decide)
  rw [h]
  simp only [List.length_append, List.length_replicate, List.length_nil]
  omega

/-- Claim C1 (amended): for every input of size S ≤ 131072 and every read
schedule, the stc rule succeeds and the output stream holds exactly 131076
bytes: bytes [0..4) are zero, bytes [4, 4+S) equal the input, and the
remaining bytes up to 131076 are zero; for S > 131072 the rule fails with
the too-large error. -/
theorem cmd_stc_spec (input : List UInt8) (sched : List Nat) (buf0 : List UInt8) :
    (input.length ≤ 131072 →
      cmd_stc ⟨input, 0⟩ sched ⟨[], 0⟩ buf0 =
        (none,
         ⟨List.replicate 4 0 ++ input ++ List.replicate (131072 - input.length) 0,
          131076⟩,
         131072 - input.length) ∧
      (cmd_stc ⟨input, 0⟩ sched ⟨[], 0⟩ buf0).2.1.data.length = 131076) ∧
    (131072 < input.length →
      cmd_stc ⟨input, 0⟩ sched ⟨[], 0⟩ buf0 =
        (some (MkErr.tooLarge (input.length - 131072)), ⟨[], 0⟩, 0)) := by
  constructor
  · intro hle
    have h := cmd_stc_eq input sched ⟨[], 0⟩ buf0 rfl hle
    simp only [List.nil_append, List.length_nil, Nat.zero_add] at h
    refine ⟨h, ?_⟩
    rw [h]
    simp only [List.length_append, List.length_replicate]
    omega
  · intro hgt
    exact cmd_stc_big ⟨input, 0⟩ sched ⟨[], 0⟩ buf0 hgt

/-- Closed witness for C1: a 2-byte input succeeds with the stated layout;
a 131073-byte input is rejected with excess 1. -/
theorem cmd_stc_spec_witness :
    (([5, 6] : List UInt8).length ≤ 131072 ∧
      cmd_stc ⟨[5, 6], 0⟩ [] ⟨[], 0⟩ [] =
        (none,
         ⟨List.replicate 4 0 ++ [5, 6] ++
            List.replicate (131072 - ([5, 6] : List UInt8).length) 0,
          131076⟩,
         131072 - ([5, 6] : List UInt8).length)) ∧
    (131072 < (List.replicate 131073 (0 : UInt8)).length ∧
      cmd_stc ⟨List.replicate 131073 0, 0⟩ [] ⟨[], 0⟩ [] =
        (some (MkErr.tooLarge ((List.replicate 131073 (0 : UInt8)).length - 131072)),
         ⟨[], 0⟩, 0)) :=
  ⟨⟨by decide, ((cmd_stc_spec [5, 6] [] []).1 (by decide)).1⟩,
   ⟨by rw [List.length_replicate]; decide,
    (cmd_stc_spec (List.replicate 131073 0) [] []).2
      (by rw [List.length_replicate]; decide)⟩⟩

/-- Counterexample to claim C2 as stated: on the empty input the stc rule
reports 131072 free bytes, not 131072 - 4 - 0 = 131068. -/
theorem cmd_stc_free_counterexample :
    (cmd_stc ⟨([] : List UInt8), 0⟩ [] ⟨[], 0⟩ []).2.2 ≠
      131072 - 4 - ([] : List UInt8).length := by
  have h := cmd_stc_eq [] [] ⟨[], 0⟩ [] rfl (by decide)
  rw [h]
  decide

/-- Claim C2 (amended): for every accepted input of size S ≤ 131072, the
free-space count the stc rule reports is 131072 - S (the 4-byte prefix is
not subtracted). -/
theorem cmd_stc_free_spec (input : List UInt8) (sched : List Nat)
    (buf0 : List UInt8) (h : input.length ≤ 131072) :
    (cmd_stc ⟨input, 0⟩ sched ⟨[], 0⟩ buf0).2.2 = 131072 - input.length := by
  rw [cmd_stc_eq input sched ⟨[], 0⟩ buf0 rfl h]

/-- Closed witness for C2: a 1-byte input reports 131071 free bytes. -/
theorem cmd_stc_free_spec_witness :
    ([9] : List UInt8).length ≤ 131072 ∧
    (cmd_stc ⟨[9], 0⟩ [] ⟨[], 0⟩ []).2.2 = 131072 - ([9] : List UInt8).length :=
  ⟨by decide, cmd_stc_free_spec [9] [] [] (by decide)⟩

/-- Claim C3: for every input of size S ≤ 262144 and every read schedule,
the pak3 rule succeeds and the output stream holds exactly 524288 bytes:
bytes [0, 0x40030) are the input followed by zero padding, bytes
[0x40030, 0x40036) are the literal patch 4e f9 00 e0 00 00 (written over
whatever the sequential pass put there), and the rest is the zero padding
the pad pass wrote; for S > 262144 the rule fails with the too-large
error, even though S may be well below the 512 KiB padding target. -/
theorem cmd_pak3_spec (input : List UInt8) (sched : List Nat) (buf0 : List UInt8) :
    (input.length ≤ 262144 →
      cmd_pak3 ⟨input, 0⟩ sched ⟨[], 0⟩ buf0 =
        (none,
         ⟨input ++ List.replicate (262192 - input.length) 0 ++ jmp_instr ++
            List.replicate 262090 0,
          262198⟩) ∧
      (cmd_pak3 ⟨input, 0⟩ sched ⟨[], 0⟩ buf0).2.data.length = 524288) ∧
    (262144 < input.length →
      cmd_pak3 ⟨input, 0⟩ sched ⟨[], 0⟩ buf0 =
        (some (MkErr.tooLarge (input.length - 262144)), ⟨[], 0⟩)) := by
  constructor
  · intro hle
    have h := cmd_pak3_eq input sched buf0 hle
    refine ⟨h, ?_⟩
    rw [h]
    have hj : jmp_instr.length = 6 := rfl
    simp only [List.length_append, List.length_replicate, hj]
    omega
  · intro hgt
    exact cmd_pak3_big ⟨input, 0⟩ sched ⟨[], 0⟩ buf0 hgt

/-- Closed witness for C3: a 1-byte input succeeds with the patch in place;
a 262145-byte input is rejected with excess 1. -/
theorem cmd_pak3_spec_witness :
    (([1] : List UInt8).length ≤ 262144 ∧
      cmd_pak3 ⟨[1], 0⟩ [] ⟨[], 0⟩ [] =
        (none,
         ⟨[1] ++ List.replicate (262192 - ([1] : List UInt8).length) 0 ++ jmp_instr ++
            List.replicate 262090 0,
          262198⟩)) ∧
    (262144 < (List.replicate 262145 (0 : UInt8)).length ∧
      cmd_pak3 ⟨List.replicate 262145 0, 0⟩ [] ⟨[], 0⟩ [] =
        (some (MkErr.tooLarge ((List.replicate 262145 (0 : UInt8)).length - 262144)),
         ⟨[], 0⟩)) :=
  ⟨⟨by decide, ((cmd_pak3_spec [1] [] []).1 (by decide)).1⟩,
   ⟨by rw [List.length_replicate]; decide,
    (cmd_pak3_spec (List.replicate 262145 0) [] []).2
      (by rw [List.length_replicate]; decide)⟩⟩

/-- Claim C4: for every caller-supplied target T, input of size S ≤ T and
read schedule, the pad rule succeeds and the output stream holds exactly T
bytes: the input followed by T - S zero bytes; for S > T the rule fails
with the too-large error and the caller retains no output artifact (main
deletes the destination file on failure). -/
theorem cmd_pad_spec (target_size : Nat) (input : List UInt8) (sched : List Nat)
    (buf0 : List UInt8) :
    (input.length ≤ target_size →
      cmd_pad ⟨input, 0⟩ sched ⟨[], 0⟩ buf0 target_size =
        (none, ⟨input ++ List.replicate (target_size - input.length) 0, target_size⟩,
         target_size - input.length) ∧
      (cmd_pad ⟨input, 0⟩ sched ⟨[], 0⟩ buf0 target_size).2.1.data.length = target_size) ∧
    (target_size < input.length →
      (cmd_pad ⟨input, 0⟩ sched ⟨[], 0⟩ buf0 target_size).1 =
        some (MkErr.tooLarge (input.length - target_size)) ∧
      retained_output (cmd_pad ⟨input, 0⟩ sched ⟨[], 0⟩ buf0 target_size) = none) := by
  constructor
  · intro hle
    have hap := append_and_pad_ok input sched ⟨[], 0⟩ buf0 target_size rfl hle
    simp only [List.nil_append, List.length_nil, Nat.zero_add] at hap
    have hc : cmd_pad ⟨input, 0⟩ sched ⟨[], 0⟩ buf0 target_size =
        (none, ⟨input ++ List.replicate (target_size - input.length) 0, target_size⟩,
         target_size - input.length) := by
      simp only [cmd_pad, hap]
    refine ⟨hc, ?_⟩
    rw [hc]
    simp only [List.length_append, List.length_replicate]
    omega
  · intro hgt
    have hap := append_and_pad_too_large ⟨input, 0⟩ sched ⟨[], 0⟩ buf0 target_size hgt
    have hc : cmd_pad ⟨input, 0⟩ sched ⟨[], 0⟩ buf0 target_size =
        (some (MkErr.tooLarge (input.length - target_size)), ⟨[], 0⟩, 0) := by
      simp only [cmd_pad, hap]
    refine ⟨by rw [hc], by rw [hc]; rfl⟩

/-- Closed witness for C4: a 2-byte input padded to 5 bytes succeeds; a
6-byte input with target 5 fails and the caller retains nothing. -/
theorem cmd_pad_spec_witness :
    (([1, 2] : List UInt8).length ≤ 5 ∧
      cmd_pad ⟨[1, 2], 0⟩ [] ⟨[], 0⟩ [] 5 =
        (none, ⟨[1, 2] ++ List.replicate (5 - ([1, 2] : List UInt8).length) 0, 5⟩,
         5 - ([1, 2] : List UInt8).length)) ∧
    (5 < ([1, 2, 3, 4, 5, 6] : List UInt8).length ∧
      retained_output (cmd_pad ⟨[1, 2, 3, 4, 5, 6], 0⟩ [] ⟨[], 0⟩ [] 5) = none) :=
  ⟨⟨by decide, ((cmd_pad_spec 5 [1, 2] [] []).1 (by decide)).1⟩,
   ⟨by decide, ((cmd_pad_spec 5 [1, 2, 3, 4, 5, 6] [] []).2 (by decide)).2⟩⟩

/-- Claim C9: for each of pad, pak3 and stc, when the rule fails because
the probed input size exceeds the rule's ceiling, the output stream is
returned exactly as it was - the size probe and ceiling check precede
every write. -/
theorem too_large_writes_nothing (input : List UInt8) (sched : List Nat)
    (out : OutFile) (buf0 : List UInt8) (target_size : Nat) :
    (target_size < input.length →
      cmd_pad ⟨input, 0⟩ sched out buf0 target_size =
        (some (MkErr.tooLarge (input.length - target_size)), out, 0)) ∧
    (262144 < input.length →
      cmd_pak3 ⟨input, 0⟩ sched out buf0 =
        (some (MkErr.tooLarge (input.length - 262144)), out)) ∧
    (131072 < input.length →
      cmd_stc ⟨input, 0⟩ sched out buf0 =
        (some (MkErr.tooLarge (input.length - 131072)), out, 0)) := by
  refine ⟨?_, ?_, ?_⟩
  · intro hgt
    have hap := append_and_pad_too_large ⟨input, 0⟩ sched out buf0 target_size hgt
    simp only [cmd_pad, hap]
  · intro hgt
    exact cmd_pak3_big ⟨input, 0⟩ sched out buf0 hgt
  · intro hgt
    exact cmd_stc_big ⟨input, 0⟩ sched out buf0 hgt

/-- Closed witness for C9: over-ceiling inputs for all three rules leave a
previously written output stream untouched. -/
theorem too_large_writes_nothing_witness :
    (5 < ([1, 2, 3, 4, 5, 6] : List UInt8).length ∧
      cmd_pad ⟨[1, 2, 3, 4, 5, 6], 0⟩ [] ⟨[9], 1⟩ [] 5 =
        (some (MkErr.tooLarge (([1, 2, 3, 4, 5, 6] : List UInt8).length - 5)),
         ⟨[9], 1⟩, 0)) ∧
    (262144 < (List.replicate 262145 (7 : UInt8)).length ∧
      cmd_pak3 ⟨List.replicate 262145 7, 0⟩ [] ⟨[9], 1⟩ [] =
        (some (MkErr.tooLarge ((List.replicate 262145 (7 : UInt8)).length - 262144)),
         ⟨[9], 1⟩)) ∧
    (131072 < (List.replicate 131073 (7 : UInt8)).length ∧
      cmd_stc ⟨List.replicate 131073 7, 0⟩ [] ⟨[9], 1⟩ [] =
        (some (MkErr.tooLarge ((List.replicate 131073 (7 : UInt8)).length - 131072)),
         ⟨[9], 1⟩, 0)) :=
  ⟨⟨by decide,
    (too_large_writes_nothing [1, 2, 3, 4, 5, 6] [] ⟨[9], 1⟩ [] 5).1 (by decide)⟩,
   ⟨by rw [List.length_replicate]; decide,
    (too_large_writes_nothing (List.replicate 262145 7) [] ⟨[9], 1⟩ [] 0).2.1
      (by rw [List.length_replicate]; decide)⟩,
   ⟨by rw [List.length_replicate]; decide,
    (too_large_writes_nothing (List.replicate 131073 7) [] ⟨[9], 1⟩ [] 0).2.2
      (by rw [List.length_replicate]; decide)⟩⟩

/-- dropWhile walks over a prefix on which the predicate holds. -/
theorem dropWhile_append_all {p : Char → Bool} :
    ∀ (ws r : List Char), (∀ c ∈ ws, p c = true) →
    List.dropWhile p (ws ++ r) = List.dropWhile p r := by
  intro ws
  induction ws with
  | nil => intro r _; rfl
  | cons c t ih =>
    intro r h
    rw [List.cons_append, List.dropWhile_cons_of_pos (h c (by simp))]
    exact ih r (fun x hx => h x (by simp [hx]))

/-- takeWhile and dropWhile split a list of satisfying elements followed by
a list whose head (if any) falsifies the predicate. -/
theorem takeWhile_append_stops {p : Char → Bool} :
    ∀ (ds rest : List Char), (∀ c ∈ ds, p c = true) →
    (∀ c, rest.head? = some c → p c = false) →
    List.takeWhile p (ds ++ rest) = ds ∧ List.dropWhile p (ds ++ rest) = rest := by
  intro ds
  induction ds with
  | nil =>
    intro rest _ hrest
    cases rest with
    | nil => exact ⟨rfl, rfl⟩
    | cons c t =>
      have hc : ¬ (p c = true) := by simp [hrest c rfl]
      exact ⟨by rw [List.nil_append, List.takeWhile_cons_of_neg hc],
             by rw [List.nil_append, List.dropWhile_cons_of_neg hc]⟩
  | cons c t ih =>
    intro rest hds hrest
    have hpc : p c = true := hds c (by simp)
    have iht := ih rest (fun x hx => hds x (by simp [hx])) hrest
    exact ⟨by rw [List.cons_append, List.takeWhile_cons_of_pos hpc, iht.1],
           by rw [List.cons_append, List.dropWhile_cons_of_pos hpc]; exact iht.2⟩

/-- A decimal digit is not in the whitespace class sscanf skips. -/
theorem not_space_of_digit (c : Char) (h : c.isDigit = true) :
    isSpaceChar c = false := by
  simp only [isSpaceChar, Bool.or_eq_false_iff, beq_eq_false_iff_ne, ne_eq]
  refine ⟨⟨⟨⟨⟨?_, ?_⟩, ?_⟩, ?_⟩, ?_⟩, ?_⟩ <;> intro e <;> subst e <;>
    exact absurd h (by decide)

/-- parseSign does not consume a leading digit. -/
theorem parseSign_digit (c : Char) (r : List Char) (h : c.isDigit = true) :
    parseSign (c :: r) = (false, c :: r) := by
  have h1 : ¬ (c = '+') := fun e => by subst e; exact absurd h (by decide)
  have h2 : ¬ (c = '-') := fun e => by subst e; exact absurd h (by decide)
  simp [parseSign, h1, h2]

/-- sscanf_lu_cc evaluated on an input whose whitespace-stripped,
sign-stripped remainder is a nonempty digit run followed by a non-digit
remainder. -/
theorem sscanf_of_parts (s : List Char) (b : Bool) (ds rest : List Char)
    (hne : ds ≠ [])
    (hds : ∀ c ∈ ds, c.isDigit = true)
    (hrest : ∀ c, rest.head? = some c → c.isDigit = false)
    (hp : parseSign (List.dropWhile isSpaceChar s) = (b, ds ++ rest)) :
    sscanf_lu_cc s = some
      ((if b then (wordMod - digitsVal ds % wordMod) % wordMod
        else digitsVal ds % wordMod),
       rest.head?, rest.tail.head?) := by
  have hsplit := takeWhile_append_stops ds rest hds hrest
  simp only [sscanf_lu_cc, hp, hsplit.1, hsplit.2]
  rw [if_neg hne]

/-- Counterexample to claim C8 as stated: the string "+5" is neither a bare
decimal number nor a number followed by one suffix character, yet the
parser accepts it (the %lu conversion takes an optional sign) and returns
5 instead of reporting an invalid size. -/
theorem get_size_value_sign_counterexample :
    get_size_value "+5" = 5 ∧ SIZE_ERROR ≠ 5 :=
  ⟨by decide, by decide⟩

/-- Claim C8 (amended): the %lu conversion first skips whitespace and
accepts an optional '+' or '-' sign ('-' negating modulo 2^64); after
that, a digit run d followed by nothing yields d, followed by exactly one
suffix k/K, m/M or g/G yields d * 1024, d * 1048576 or d * 1073741824
(all values taken modulo 2^64), and an unknown suffix or any character
after the suffix reports the invalid-size error; an input with no digits
after the optional whitespace and sign also reports the invalid-size
error. -/
theorem get_size_value_spec :
    (∀ (ws sg ds rest : List Char),
      (∀ c ∈ ws, isSpaceChar c = true) →
      (sg = [] ∨ sg = ['+'] ∨ sg = ['-']) →
      ds ≠ [] →
      (∀ c ∈ ds, c.isDigit = true) →
      (∀ c, rest.head? = some c → c.isDigit = false) →
      get_size_value (String.mk (ws ++ sg ++ ds ++ rest)) =
        (let v := if sg = ['-'] then (wordMod - digitsVal ds % wordMod) % wordMod
                  else digitsVal ds % wordMod
         match rest with
         | [] => v
         | [c] =>
             if c = 'k' || c = 'K' then v * 1024 % wordMod
             else if c = 'm' || c = 'M' then v * (1024 * 1024) % wordMod
             else if c = 'g' || c = 'G' then v * (1024 * 1024 * 1024) % wordMod
             else SIZE_ERROR
         | _ :: _ :: _ => SIZE_ERROR)) ∧
    (∀ s : List Char,
      List.takeWhile Char.isDigit (parseSign (List.dropWhile isSpaceChar s)).2 = [] →
      get_size_value (String.mk s) = SIZE_ERROR) := by
  constructor
  · intro ws sg ds rest hws hsg hne hds hrest
    obtain ⟨d, ds', rfl⟩ : ∃ d ds', ds = d :: ds' := by
      cases ds with
      | nil => exact absurd rfl hne
      | cons d t => exact ⟨d, t, rfl⟩
    rcases hsg with rfl | rfl | rfl
    · have hp : parseSign
          (List.dropWhile isSpaceChar (ws ++ [] ++ (d :: ds') ++ rest)) =
          (false, (d :: ds') ++ rest) := by
        have e1 : ws ++ [] ++ (d :: ds') ++ rest = ws ++ ((d :: ds') ++ rest) := by
          simp [List.append_assoc]
        rw [e1, dropWhile_append_all _ _ hws, List.cons_append,
          List.dropWhile_cons_of_neg
            (by simp [not_space_of_digit d (hds d (by simp))])]
        exact parseSign_digit d (ds' ++ rest) (hds d (by simp))
      have hs := sscanf_of_parts _ false (d :: ds') rest hne hds hrest hp
      unfold get_size_value
      rw [show (String.mk (ws ++ [] ++ (d :: ds') ++ rest)).data =
        ws ++ [] ++ (d :: ds') ++ rest from rfl, hs]
      cases rest with
      | nil => rfl
      | cons c t =>
        cases t with
        | nil => rfl
        | cons c2 t2 => rfl
    · have hp : parseSign
          (List.dropWhile isSpaceChar (ws ++ ['+'] ++ (d :: ds') ++ rest)) =
          (false, (d :: ds') ++ rest) := by
        have e1 : ws ++ ['+'] ++ (d :: ds') ++ rest =
            ws ++ ('+' :: ((d :: ds') ++ rest)) := by
          simp [List.append_assoc]
        rw [e1, dropWhile_append_all _ _ hws,
          List.dropWhile_cons_of_neg (by decide)]
        rfl
      have hs := sscanf_of_parts _ false (d :: ds') rest hne hds hrest hp
      unfold get_size_value
      rw [show (String.mk (ws ++ ['+'] ++ (d :: ds') ++ rest)).data =
        ws ++ ['+'] ++ (d :: ds') ++ rest from rfl, hs]
      cases rest with
      | nil => rfl
      | cons c t =>
        cases t with
        | nil => rfl
        | cons c2 t2 => rfl
    · have hp : parseSign
          (List.dropWhile isSpaceChar (ws ++ ['-'] ++ (d :: ds') ++ rest)) =
          (true, (d :: ds') ++ rest) := by
        have e1 : ws ++ ['-'] ++ (d :: ds') ++ rest =
            ws ++ ('-' :: ((d :: ds') ++ rest)) := by
          simp [List.append_assoc]
        rw [e1, dropWhile_append_all _ _ hws,
          List.dropWhile_cons_of_neg (by decide)]
        rfl
      have hs := sscanf_of_parts _ true (d :: ds') rest hne hds hrest hp
      unfold get_size_value
      rw [show (String.mk (ws ++ ['-'] ++ (d :: ds') ++ rest)).data =
        ws ++ ['-'] ++ (d :: ds') ++ rest from rfl, hs]
      cases rest with
      | nil => rfl
      | cons c t =>
        cases t with
        | nil => rfl
        | cons c2 t2 => rfl
  · intro s h
    unfold get_size_value
    rw [show (String.mk s).data = s from rfl]
    simp only [sscanf_lu_cc, h]
    rfl

/-- Closed witness for C8: the string " +7k" (whitespace, sign, digit,
suffix) parses to 7 * 1024 = 7168. -/
theorem get_size_value_spec_witness :
    (['7'] : List Char) ≠ [] ∧
    get_size_value (String.mk ([' '] ++ ['+'] ++ ['7'] ++ ['k'])) = 7168 :=
  ⟨by decide,
   by
    have h := get_size_value_spec.1 [' '] ['+'] ['7'] ['k']
      (by intro c hc; rw [List.mem_singleton] at hc; subst hc; decide)
      (by decide)
      (by decide)
      (by intro c hc; rw [List.mem_singleton] at hc; subst hc; decide)
      (by intro c hc; simp only [List.head?_cons, Option.some.injEq] at hc
          subst hc; decide)
    exact h⟩

/-- Claim C10: the well-formed decimal size argument whose value is
2^64 - 1 - the all-ones size_t used as the SIZE_ERROR sentinel - is
indistinguishable from a malformed size: get_size_value returns SIZE_ERROR
for it, and main exits with failure status before opening any file. -/
theorem pad_sentinel_size :
    get_size_value "18446744073709551615" = SIZE_ERROR ∧
    main_dispatch ["pad", "18446744073709551615", "in.img", "out.img"] =
      DispatchOutcome.invalid_size :=
  ⟨by decide, by decide⟩
